import Mathlib

/-!
Verification of the `wall-switch` wallpaper rotator (`src/main.rs`).

The program is embedded shallowly:

* Image paths are Lean `String`s; Rust `PathBuf` equality on the paths the
  program manipulates is string equality.
* The random number generator is modelled by an oracle index `k : Nat`.
  Rust's `slice::choose` picks a uniformly random index in `[0, len)` of a
  non-empty slice and returns `None` on an empty one; `choose l k` returns
  the element at index `k % l.length`, so that quantifying over all `k`
  covers exactly the possible draws.
* The external `swww` tool is modelled by the data the program inspects:
  an `Option ProcOutput` (`none` when the process could not be launched,
  otherwise exit status, stdout and stderr).
* `println!` / `eprintln!` logging is not part of the returned data in the
  Rust code; the distinct outcome constructors of a cycle correspond to the
  distinct log lines.
-/

namespace WallSwitch

/-- Model of Rust `slice::choose(&mut rng)`: `None` on an empty slice,
otherwise the element at a uniformly random index.  The random draw is the
oracle `k`, reduced modulo the length. -/
def choose {α : Type} (l : List α) (k : Nat) : Option α :=
  l.get? (k % l.length)

/-- Embedding of `select_random_image` (src/main.rs lines 157-176).

```rust
if images.len() <= 1 || current.is_none() {
    return images.choose(&mut rng).cloned();
}
let current = current.unwrap();
let candidates: Vec<&PathBuf> = images.iter().filter(|&img| img != current).collect();
if candidates.is_empty() {
    return Some(current.clone());
}
candidates.choose(&mut rng).map(|&img| img.clone())
```

The `current.unwrap()` after the guard is rendered as a match whose `none`
arm is unreachable (the guard has already returned when `current` is
`none`). -/
def select_random_image (images : List String) (current : Option String) (k : Nat) :
    Option String :=
  if images.length ≤ 1 ∨ current = none then
    choose images k
  else
    match current with
    | none => none
    | some cur =>
      let candidates : List String := images.filter (fun img => img ≠ cur)
      if candidates.isEmpty then
        some cur
      else
        choose candidates k

theorem choose_eq_none {α : Type} (l : List α) (k : Nat) :
    choose l k = none ↔ l = [] := by
  unfold choose
  constructor
  · intro h
    by_contra hne
    have hlt : k % l.length < l.length := Nat.mod_lt _ (List.length_pos.mpr hne)
    rw [List.get?_eq_none] at h
    omega
  · intro h
    subst h
    rfl

theorem choose_mem {α : Type} {l : List α} {k : Nat} {x : α}
    (h : choose l k = some x) : x ∈ l :=
  List.get?_mem h

theorem choose_isSome {α : Type} {l : List α} (hne : l ≠ []) (k : Nat) :
    ∃ x, choose l k = some x := by
  cases hx : choose l k with
  | none => exact absurd ((choose_eq_none l k).mp hx) hne
  | some x => exact ⟨x, rfl⟩

/-- C3: `select_random_image` returns `none` exactly on the empty catalog;
every non-empty catalog, with any current selection (known or unknown),
yields `some` image. -/
theorem select_none_iff_empty (images : List String) (current : Option String) (k : Nat) :
    select_random_image images current k = none ↔ images = [] := by
  unfold select_random_image
  by_cases hc : images.length ≤ 1 ∨ current = none
  · rw [if_pos hc]
    exact choose_eq_none images k
  · rw [if_neg hc]
    push_neg at hc
    obtain ⟨hlen, hcur⟩ := hc
    have hne : images ≠ [] := by
      intro h
      subst h
      simp at hlen
    cases current with
    | none => exact absurd rfl hcur
    | some cur =>
      simp only []
      constructor
      · intro h
        by_cases hemp : (images.filter (fun img => img ≠ cur)).isEmpty
        · rw [if_pos hemp] at h
          exact absurd h (by simp)
        · rw [if_neg hemp] at h
          have : images.filter (fun img => img ≠ cur) = [] :=
            (choose_eq_none _ _).mp h
          rw [List.isEmpty_iff] at hemp
          exact absurd this hemp
      · intro h
        exact absurd h hne

/-- C9: whatever `select_random_image` returns is an element of the catalog;
it never fabricates a path, including in the empty-candidate-set branch. -/
theorem select_mem_catalog (images : List String) (current : Option String) (k : Nat)
    (img : String) (h : select_random_image images current k = some img) :
    img ∈ images := by
  unfold select_random_image at h
  by_cases hc : images.length ≤ 1 ∨ current = none
  · rw [if_pos hc] at h
    exact choose_mem h
  · rw [if_neg hc] at h
    push_neg at hc
    obtain ⟨hlen, hcur⟩ := hc
    cases current with
    | none => exact absurd rfl hcur
    | some cur =>
      simp only [] at h
      by_cases hemp : (images.filter (fun img => img ≠ cur)).isEmpty
      · rw [if_pos hemp] at h
        have himg : cur = img := Option.some.inj h
        subst himg
        rw [List.isEmpty_iff, List.filter_eq_nil_iff] at hemp
        have hne : images ≠ [] := by
          intro h0
          subst h0
          simp at hlen
        obtain ⟨a, ha⟩ := List.exists_mem_of_ne_nil images hne
        have : a = cur := by
          have := hemp a ha
          simpa using this
        rwa [this] at ha
      · rw [if_neg hemp] at h
        have := choose_mem h
        exact (List.mem_filter.mp this).1

/-- Witness for C9 at a concrete input. -/
theorem select_mem_catalog_witness : ("a" : String) ∈ (["a", "b"] : List String) :=
  select_mem_catalog ["a", "b"] none 0 "a" (by decide)

/-- C1 fails as stated: a catalog of size 2 whose entries both equal the
current selection makes the candidate set empty, and the code then returns
the current selection itself. -/
theorem select_repeat_counterexample :
    2 ≤ (["a", "a"] : List String).length ∧ ("a" : String) ∈ (["a", "a"] : List String) ∧
      select_random_image ["a", "a"] (some "a") 0 = some "a" := by
  decide

/-- C1 amended: for a catalog of size at least 2 containing the known
current selection and at least one entry different from it, the selection
never returns the current selection. -/
theorem select_avoids_current (images : List String) (cur : String) (k : Nat)
    (hlen : 2 ≤ images.length) (hmem : cur ∈ images)
    (hdiff : ∃ img ∈ images, img ≠ cur) :
    select_random_image images (some cur) k ≠ some cur := by
  unfold select_random_image
  have h1 : ¬(images.length ≤ 1 ∨ (some cur : Option String) = none) := by
    push_neg
    exact ⟨by omega, by simp⟩
  rw [if_neg h1]
  simp only []
  obtain ⟨x, hx, hxne⟩ := hdiff
  have hxf : x ∈ images.filter (fun img => img ≠ cur) := by
    rw [List.mem_filter]
    exact ⟨hx, by simpa using hxne⟩
  have hemp : ¬(images.filter (fun img => img ≠ cur)).isEmpty := by
    rw [List.isEmpty_iff]
    intro h0
    rw [h0] at hxf
    exact absurd hxf (List.not_mem_nil x)
  rw [if_neg hemp]
  intro h
  have hmemf := choose_mem h
  have := (List.mem_filter.mp hmemf).2
  simp at this

/-- Witness for the amended C1 at a concrete input. -/
theorem select_avoids_current_witness :
    select_random_image ["a", "b"] (some "a") 0 ≠ some "a" :=
  select_avoids_current ["a", "b"] "a" 0 (by decide) (by decide) ⟨"b", by decide, by decide⟩

/-- C4 fails as stated: on the empty catalog the candidate set is empty,
yet the code returns `none` (via the size guard), not the current
selection. -/
theorem select_empty_candidates_counterexample :
    ([] : List String).filter (fun img => img ≠ "a") = [] ∧
      select_random_image [] (some "a") 0 ≠ some "a" := by
  decide

/-- C4 amended: for every non-empty catalog and known current selection
whose candidate set is empty, the selection returns the current selection
unchanged. -/
theorem select_empty_candidates (images : List String) (cur : String) (k : Nat)
    (hne : images ≠ []) (hfil : images.filter (fun img => img ≠ cur) = []) :
    select_random_image images (some cur) k = some cur := by
  have hall : ∀ a ∈ images, a = cur := by
    intro a ha
    have := List.filter_eq_nil_iff.mp hfil a ha
    simpa using this
  unfold select_random_image
  by_cases hlen : images.length ≤ 1 ∨ (some cur : Option String) = none
  · rw [if_pos hlen]
    have hpos : 0 < images.length := List.length_pos.mpr hne
    have h1 : images.length = 1 := by
      rcases hlen with h | h
      · omega
      · exact absurd h (by simp)
    obtain ⟨a, ha⟩ := List.length_eq_one.mp h1
    have hac : a = cur := hall a (by rw [ha]; exact List.mem_singleton_self a)
    subst ha
    subst hac
    unfold choose
    simp [Nat.mod_one]
  · rw [if_neg hlen]
    simp only []
    rw [if_pos (by rw [List.isEmpty_iff]; exact hfil)]

/-- Witness for the amended C4 at a concrete input. -/
theorem select_empty_candidates_witness :
    select_random_image ["a", "a"] (some "a") 3 = some "a" :=
  select_empty_candidates ["a", "a"] "a" 3 (by decide) (by decide)

/-- C5: a known current selection that is not in the catalog filters out
nothing: the candidate set is the whole catalog, the selection behaves as a
uniform pick from the whole catalog, and every catalog element remains
selectable. -/
theorem select_current_not_in_catalog (images : List String) (cur : String) (k : Nat)
    (h : cur ∉ images) :
    images.filter (fun img => img ≠ cur) = images ∧
      select_random_image images (some cur) k = choose images k ∧
      ∀ img ∈ images, ∃ k2, select_random_image images (some cur) k2 = some img := by
  have hfil : images.filter (fun img => img ≠ cur) = images := by
    rw [List.filter_eq_self]
    intro a ha
    simp only [decide_eq_true_eq]
    intro heq
    subst heq
    exact absurd ha h
  have hsel : ∀ k0 : Nat, select_random_image images (some cur) k0 = choose images k0 := by
    intro k0
    unfold select_random_image
    by_cases hlen : images.length ≤ 1 ∨ (some cur : Option String) = none
    · rw [if_pos hlen]
    · rw [if_neg hlen]
      push_neg at hlen
      simp only []
      rw [hfil]
      have hne : images ≠ [] := by
        intro h0
        subst h0
        simp at hlen
      rw [if_neg (by rw [List.isEmpty_iff]; exact hne)]
  refine ⟨hfil, hsel k, ?_⟩
  intro img hmem
  obtain ⟨n, hn⟩ := List.mem_iff_get.mp hmem
  refine ⟨n.val, ?_⟩
  rw [hsel n.val]
  unfold choose
  rw [Nat.mod_eq_of_lt n.isLt, List.get?_eq_get n.isLt]
  rw [hn]

/-- Witness for C5 at a concrete input. -/
theorem select_current_not_in_catalog_witness :
    select_random_image ["a"] (some "b") 0 = choose ["a"] 0 :=
  (select_current_not_in_catalog ["a"] "b" 0 (by decide)).2.1

/-!
Probe-output parsing (`get_current_wallpaper`, src/main.rs lines 90-99):

```rust
for line in stdout.lines() {
    if let Some(image_part) = line.split("currently displaying: image: ").nth(1) {
        return Ok(Some(PathBuf::from(image_part.trim())));
    }
}
Ok(None)
```

The Rust string primitives are modelled by structural recursion over the
character list of the string (Lean's own `String.splitOn` and `String.trim`
are not kernel-reducible, so they cannot serve as an executable embedding).
-/

/-- First occurrence of the separator `sep` inside `l`: `some (pre, post)`
with `l = pre ++ sep ++ post` at the leftmost match, `none` when `sep` does
not occur.  For a non-empty `sep` this is the splitting step of Rust
`str::split`. -/
def splitFirst (sep : List Char) : List Char → Option (List Char × List Char)
  | [] => if sep.isPrefixOf ([] : List Char) then some ([], []) else none
  | c :: rest =>
    if sep.isPrefixOf (c :: rest) then
      some ([], (c :: rest).drop sep.length)
    else
      match splitFirst sep rest with
      | some (pre, post) => some (c :: pre, post)
      | none => none

/-- Rust `line.split(sep).nth(1)` for a non-empty `sep`: `none` when `sep`
does not occur in the line; otherwise the fragment strictly between the
first and second occurrence of `sep`, or the whole tail after the first
occurrence when `sep` occurs exactly once. -/
def splitNth1 (sep l : List Char) : Option (List Char) :=
  match splitFirst sep l with
  | none => none
  | some (_, post) =>
    match splitFirst sep post with
    | some (mid, _) => some mid
    | none => some post

/-- Rust `str::trim`: drop leading and trailing whitespace characters. -/
def trimChars (l : List Char) : List Char :=
  ((l.dropWhile Char.isWhitespace).reverse.dropWhile Char.isWhitespace).reverse

/-- Split a character list at every newline character, like Rust
`str::split` with pattern `\n` (every line boundary produces a segment). -/
def splitNl : List Char → List (List Char)
  | [] => [[]]
  | c :: rest =>
    if c = '\n' then
      [] :: splitNl rest
    else
      match splitNl rest with
      | seg :: segs => (c :: seg) :: segs
      | [] => [[c]]

/-- Strip one trailing carriage return from a line, as Rust `str::lines`
does for `\r\n` line endings. -/
def stripCr (l : List Char) : List Char :=
  if l.getLast? = some '\r' then l.dropLast else l

/-- Rust `str::lines`: split at every `\n`, do not emit a final empty line
for a trailing newline, and strip a trailing `\r` from each line. -/
def rustLines (s : String) : List (List Char) :=
  let segs := splitNl s.data
  let segs := if segs.getLast? = some [] then segs.dropLast else segs
  segs.map stripCr

/-- The marker substring of the `swww query` output scanned for by
`get_current_wallpaper`. -/
def marker : List Char := "currently displaying: image: ".data

/-- The scanning loop of `get_current_wallpaper`: return, for the first
line in which the marker occurs, the trimmed fragment after it; `none`
when no line matches. -/
def find_image_line : List (List Char) → Option String
  | [] => none
  | line :: rest =>
    match splitNth1 marker line with
    | some image_part => some (String.mk (trimChars image_part))
    | none => find_image_line rest

/-- Parsing part of `get_current_wallpaper`: scan the captured stdout line
by line for the marker. -/
def parse_current_wallpaper (stdout : String) : Option String :=
  find_image_line (rustLines stdout)

theorem find_image_line_none (ls : List (List Char))
    (h : ∀ l ∈ ls, splitNth1 marker l = none) : find_image_line ls = none := by
  induction ls with
  | nil => rfl
  | cons a t ih =>
    have ha := h a (List.mem_cons_self a t)
    simp only [find_image_line, ha]
    exact ih (fun l hl => h l (List.mem_cons_of_mem a hl))

theorem find_image_line_first (pre : List (List Char)) (line : List Char)
    (rest : List (List Char)) (frag : List Char)
    (hpre : ∀ l ∈ pre, splitNth1 marker l = none)
    (hline : splitNth1 marker line = some frag) :
    find_image_line (pre ++ line :: rest) = some (String.mk (trimChars frag)) := by
  induction pre with
  | nil => simp only [List.nil_append, find_image_line, hline]
  | cons a t ih =>
    have ha := hpre a (List.mem_cons_self a t)
    simp only [List.cons_append, find_image_line, ha]
    exact ih (fun l hl => hpre l (List.mem_cons_of_mem a hl))

/-- C6: the sample `swww query` output line yields the trailing path
fragment trimmed of whitespace; in general the first line in which the
marker occurs determines the result; and output in which no line contains
the marker parses to `none` (probe result unknown). -/
theorem probe_parsing :
    (parse_current_wallpaper
        "DP-1: 2560x1080, scale: 2, currently displaying: image: /home/x/a.jpg" =
      some "/home/x/a.jpg") ∧
    (∀ pre line rest frag,
        (∀ l ∈ pre, splitNth1 marker l = none) →
        splitNth1 marker line = some frag →
        find_image_line (pre ++ line :: rest) = some (String.mk (trimChars frag))) ∧
    (∀ stdout : String,
        (∀ line ∈ rustLines stdout, splitNth1 marker line = none) →
        parse_current_wallpaper stdout = none) :=
  ⟨by decide,
   fun pre line rest frag hpre hline => find_image_line_first pre line rest frag hpre hline,
   fun stdout h => find_image_line_none (rustLines stdout) h⟩

/-- Witness for C6 at concrete inputs: a marker-only line is found past a
non-matching line, and marker-free output parses to `none`. -/
theorem probe_parsing_witness :
    find_image_line ([['x']] ++ marker :: []) = some (String.mk (trimChars [])) ∧
    parse_current_wallpaper "nothing to see" = none :=
  ⟨probe_parsing.2.1 [['x']] marker [] [] (by decide) (by decide),
   probe_parsing.2.2 "nothing to see" (by decide)⟩

/-!
The external `swww` tool and one rotation cycle.  An invocation of the
tool is modelled by the data the program inspects: `none` when the process
could not be launched (Rust `Command::output()` returned `Err`), otherwise
the exit status, captured stdout and captured stderr.
-/

/-- Result of one external process invocation, as inspected by the
program: `success` is `status.success()`. -/
structure ProcOutput where
  success : Bool
  stdout : String
  stderr : String
  deriving DecidableEq

/-- Embedding of `get_current_wallpaper` (src/main.rs lines 79-100): a
launch failure or a non-zero exit status is an error (`bail!`); on success
the stdout is scanned for the marker. -/
def get_current_wallpaper (queryResult : Option ProcOutput) : Except String (Option String) :=
  match queryResult with
  | none => Except.error "Failed to execute swww query command"
  | some output =>
    if !output.success then
      Except.error (String.append "swww query failed: " output.stderr)
    else
      Except.ok (parse_current_wallpaper output.stdout)

/-- Embedding of `set_wallpaper` (src/main.rs lines 134-154), keeping only
the error structure: a launch failure or a non-zero exit status is an
error, success is `Ok(())`. -/
def set_wallpaper (setResult : Option ProcOutput) : Except String Unit :=
  match setResult with
  | none => Except.error "Failed to execute swww img command"
  | some output =>
    if !output.success then
      Except.error (String.append "swww img failed: " output.stderr)
    else
      Except.ok ()

/-- The probe step at the start of `change_wallpaper_once` (src/main.rs
lines 104-115): an `Err` from `get_current_wallpaper` is logged as a
warning and replaced by `None` (current wallpaper unknown). -/
def probe_current (queryResult : Option ProcOutput) : Option String :=
  match get_current_wallpaper queryResult with
  | Except.ok current => current
  | Except.error _ => none

/-- Observable outcome of one rotation cycle.  Each constructor matches
one branch of `change_wallpaper_once` and the log line printed there:
`applied img ok` means the setter was invoked on `img` (`ok = false` when
the set failed and the error was logged), `skippedSame` means the
selection equalled the current wallpaper and the apply step was skipped,
`noSelection` means `select_random_image` returned `None`. -/
inductive CycleOutcome where
  | applied (img : String) (ok : Bool)
  | skippedSame (img : String)
  | noSelection
  deriving DecidableEq

/-- Embedding of `change_wallpaper_once` (src/main.rs lines 102-130): probe
the current wallpaper, select a new one, and invoke the setter only when
the selection differs from the probed current wallpaper.  `k` is the
random oracle passed to the selection. -/
def change_wallpaper_once (images : List String) (queryResult : Option ProcOutput)
    (k : Nat) (setResult : Option ProcOutput) : CycleOutcome :=
  let current_wallpaper := probe_current queryResult
  match select_random_image images current_wallpaper k with
  | some new_wallpaper =>
    if current_wallpaper ≠ some new_wallpaper then
      match set_wallpaper setResult with
      | Except.ok _ => CycleOutcome.applied new_wallpaper true
      | Except.error _ => CycleOutcome.applied new_wallpaper false
    else
      CycleOutcome.skippedSame new_wallpaper
  | none => CycleOutcome.noSelection

/-- External data consumed by one rotation cycle: the query invocation,
the random draw, and the set invocation. -/
structure CycleInput where
  queryResult : Option ProcOutput
  k : Nat
  setResult : Option ProcOutput

/-- The event loop of `main` (src/main.rs lines 200-219), one cycle per
trigger (timer expiry or SIGUSR1): every trigger runs exactly one cycle,
whatever the outcome of the previous ones. -/
def run_cycles (images : List String) (inputs : List CycleInput) : List CycleOutcome :=
  inputs.map (fun i => change_wallpaper_once images i.queryResult i.k i.setResult)

/-- C2: a query process that exits with non-zero status makes the cycle's
probe step yield `none` (current wallpaper unknown), and the cycle behaves
exactly as it does when the query could not be launched at all — the
failure never aborts the cycle. -/
theorem probe_failure_unknown (out : ProcOutput) (hfail : out.success = false) :
    probe_current (some out) = none ∧
    ∀ images k setResult,
      change_wallpaper_once images (some out) k setResult =
        change_wallpaper_once images none k setResult := by
  have hp : probe_current (some out) = none := by
    simp [probe_current, get_current_wallpaper, hfail]
  refine ⟨hp, ?_⟩
  intro images k s
  unfold change_wallpaper_once
  rw [hp]
  rfl

/-- Witness for C2 at a concrete input. -/
theorem probe_failure_unknown_witness :
    probe_current (some ⟨false, "", "boom"⟩) = none :=
  (probe_failure_unknown ⟨false, "", "boom"⟩ rfl).1

/-- C7: when the selection equals the probed current wallpaper, the cycle
skips the apply step (no-change log line); conversely the setter is
invoked only when the selection differs from the probed current
wallpaper. -/
theorem skip_when_same (images : List String) (q : Option ProcOutput) (k : Nat)
    (s : Option ProcOutput) (img : String)
    (hsel : select_random_image images (probe_current q) k = some img) :
    (probe_current q = some img →
       change_wallpaper_once images q k s = CycleOutcome.skippedSame img) ∧
    (∀ ok, change_wallpaper_once images q k s = CycleOutcome.applied img ok →
       probe_current q ≠ some img) := by
  constructor
  · intro hcur
    rw [hcur] at hsel
    simp [change_wallpaper_once, hcur, hsel]
  · intro ok h hcur
    rw [hcur] at hsel
    simp [change_wallpaper_once, hcur, hsel] at h

/-- Witness for C7 at a concrete input: the probed current wallpaper `a`
is also the selection from the singleton catalog, so the cycle skips. -/
theorem skip_when_same_witness :
    change_wallpaper_once ["a"] (some ⟨true, "currently displaying: image: a", ""⟩) 0 none =
      CycleOutcome.skippedSame "a" :=
  (skip_when_same ["a"] (some ⟨true, "currently displaying: image: a", ""⟩) 0 none "a"
    (by decide)).1 (by decide)

/-- C8: a failed apply (setter not launchable or non-zero exit) still ends
the cycle normally, with the failure recorded as a logged error; and the
event loop runs exactly one cycle per trigger, whatever the outcomes. -/
theorem apply_failure_continues (images : List String) (q : Option ProcOutput) (k : Nat)
    (s : Option ProcOutput) (e : String) (img : String)
    (hset : set_wallpaper s = Except.error e)
    (hsel : select_random_image images (probe_current q) k = some img)
    (hdiff : probe_current q ≠ some img) :
    change_wallpaper_once images q k s = CycleOutcome.applied img false ∧
    ∀ inputs, (run_cycles images inputs).length = inputs.length := by
  constructor
  · simp [change_wallpaper_once, hsel, hdiff, hset]
  · intro inputs
    simp [run_cycles]

/-- Witness for C8 at a concrete input: the setter cannot be launched,
the cycle still produces an outcome. -/
theorem apply_failure_continues_witness :
    change_wallpaper_once ["a", "b"] none 0 none = CycleOutcome.applied "a" false :=
  (apply_failure_continues ["a", "b"] none 0 none "Failed to execute swww img command" "a"
    rfl (by decide) (by decide)).1

/-!
Catalog discovery (`discover_images`, src/main.rs lines 33-76).  The
filesystem is modelled by the data the function inspects: each root
carries its existence and directory status and the list of entries its
recursive walk yields; each walk entry is either an `Ok` directory entry
(path, file status, extension — `None` when the path has no extension or
it is not valid UTF-8) or a traversal error.
-/

/-- One entry yielded by the recursive directory walk. -/
inductive WalkEntry where
  | entry (path : String) (isFile : Bool) (ext : Option String)
  | err (msg : String)
  deriving DecidableEq

/-- One root directory argument together with the filesystem data the
function inspects about it. -/
structure RootDir where
  path : String
  pathExists : Bool
  isDir : Bool
  walk : List WalkEntry

/-- The image extension whitelist of `discover_images`. -/
def image_extensions : List String :=
  ["jpg", "jpeg", "png", "gif", "bmp", "webp", "tiff", "tif"]

/-- Rust `str::to_lowercase` restricted to the ASCII case folding the
extension comparison relies on. -/
def to_lowercase (s : String) : String :=
  String.mk (s.data.map Char.toLower)

/-- The inner walk loop of `discover_images`: keep the path of every `Ok`
entry that is a file with a recognized (case-folded) image extension;
traversal errors are logged and skipped. -/
def walk_images : List WalkEntry → List String
  | [] => []
  | WalkEntry.entry p isFile ext :: rest =>
    (match isFile, ext with
     | true, some e =>
       if image_extensions.contains (to_lowercase e) then [p] else []
     | _, _ => []) ++ walk_images rest
  | WalkEntry.err _ :: rest => walk_images rest

/-- The outer root loop of `discover_images`: a nonexistent or
non-directory root is warned about and skipped (`continue`); otherwise
the walk's images are appended. -/
def discover_images_go : List RootDir → List String
  | [] => []
  | root :: rest =>
    if !root.pathExists then discover_images_go rest
    else if !root.isDir then discover_images_go rest
    else walk_images root.walk ++ discover_images_go rest

/-- Embedding of `discover_images`: the body contains no error-returning
statement (invalid roots `continue`, walk errors are matched and logged),
so despite the fallible `Result` type the single return is `Ok(images)`. -/
def discover_images (roots : List RootDir) : Except String (List String) :=
  Except.ok (discover_images_go roots)

/-- C10: `discover_images` succeeds on every input — nonexistent roots,
non-directory roots and per-entry traversal failures are skipped, never
propagated as an error. -/
theorem discover_never_fails :
    (∀ roots, ∃ imgs, discover_images roots = Except.ok imgs) ∧
    (∀ (root : RootDir) rest, root.pathExists = false →
        discover_images (root :: rest) = discover_images rest) ∧
    (∀ (root : RootDir) rest, root.isDir = false →
        discover_images (root :: rest) = discover_images rest) ∧
    (∀ m rest, walk_images (WalkEntry.err m :: rest) = walk_images rest) := by
  refine ⟨fun roots => ⟨discover_images_go roots, rfl⟩, ?_, ?_, fun m rest => rfl⟩
  · intro root rest h
    simp [discover_images, discover_images_go, h]
  · intro root rest h
    cases hex : root.pathExists <;> simp [discover_images, discover_images_go, h, hex]

/-- Witness for C10 at a concrete input: a nonexistent root contributes
nothing and discovery still succeeds. -/
theorem discover_never_fails_witness :
    discover_images [⟨"/nope", false, false, []⟩] = discover_images [] :=
  discover_never_fails.2.1 ⟨"/nope", false, false, []⟩ [] rfl

end WallSwitch
